import Mathlib

/-!
Verification of the NDVI change-detection pipeline (src/app.py).

The pipeline is embedded shallowly:
* rasters are lists of rows of rational samples (`Mat`), floats modelled as ℚ;
* numpy subtraction with broadcasting (`npSub`) models `ndvi2 - ndvi1`;
* the display normalization `(diff - min) / (max - min)` models line 112,
  with `Option ℚ` recording non-finite results of a zero denominator;
* the thresholder `(np.abs(diff) > threshold).astype(np.uint8)` is `binaryMask`;
* `rasterio.features.shapes(binary, mask=binary.astype(bool), transform=...)`
  is modelled by `shapesModel`: the maximal 4-connected regions of equal-valued
  unmasked pixels, in row-major discovery order, each represented by its pixel
  region together with its raster value (a polygon is determined by its region);
* `rasterio.transform.from_bounds` and its application to pixel corners is
  `applyTransform`;
* the shapefile-sidecar ZIP loop is `zipEntries`;
* the Streamlit control flow (AOI guard, compute button, SentinelHubRequest
  construction) is `runApp`.
-/

namespace NdviChange

/-- A raster: a list of rows of rational samples. -/
abbrev Mat := List (List ℚ)

/-- The numpy shape of a 2-D array: (rows, cols). -/
def shape (m : Mat) : Nat × Nat := (m.length, (m.headD []).length)

/-- Rectangularity: every row has the common width. -/
def WF (m : Mat) : Prop := ∀ r ∈ m, r.length = (m.headD []).length

/-- numpy broadcast compatibility of one dimension: equal, or one of them 1. -/
def compatDim (x y : Nat) : Bool := x == y || x == 1 || y == 1

/-- Broadcast a 2-D array to a target shape, replicating size-1 axes
(numpy semantics). -/
def broadcastTo (m : Mat) (h w : Nat) : Mat :=
  (if m.length == 1 then List.replicate h (m.headD []) else m).map
    (fun r => if r.length == 1 then List.replicate w (r.headD 0) else r)

/-- Elementwise subtraction of two equal-shape arrays. -/
def elemSub (a b : Mat) : Mat := List.zipWith (List.zipWith (fun x y => x - y)) a b

/-- Elementwise negation. -/
def negMat (m : Mat) : Mat := m.map (List.map (fun x => -x))

/-- The message numpy raises for incompatible operand shapes. -/
def broadcastErrMsg : String := "operands could not be broadcast together"

/-- numpy subtraction `ndvi2 - ndvi1` (src/app.py line 94): silently broadcasts
compatible shapes, raises only when the shapes are not broadcast-compatible. -/
def npSub (a b : Mat) : Except String Mat :=
  let h := max (shape a).1 (shape b).1
  let w := max (shape a).2 (shape b).2
  if compatDim (shape a).1 (shape b).1 && compatDim (shape a).2 (shape b).2 then
    Except.ok (elemSub (broadcastTo a h w) (broadcastTo b h w))
  else
    Except.error broadcastErrMsg

/-- Float division where `none` records a non-finite result (NaN or infinity)
coming from a zero denominator. -/
def npDiv (a b : ℚ) : Option ℚ := if b = 0 then none else some (a / b)

/-- np.min over all samples (0 on an empty array, a case numpy rejects). -/
def npMin (m : Mat) : ℚ :=
  match m.flatten with
  | [] => 0
  | x :: xs => xs.foldl min x

/-- np.max over all samples (0 on an empty array, a case numpy rejects). -/
def npMax (m : Mat) : ℚ :=
  match m.flatten with
  | [] => 0
  | x :: xs => xs.foldl max x

/-- Display normalization (src/app.py line 112):
`(diff - np.min(diff)) / (np.max(diff) - np.min(diff))`, with no guard for a
constant raster. -/
def normalize (m : Mat) : List (List (Option ℚ)) :=
  m.map (fun r => r.map (fun v => npDiv (v - npMin m) (npMax m - npMin m)))

/-- One pixel of the thresholder: `(|v| > t)` cast to uint8 (src/app.py line 118). -/
def threshPix (t v : ℚ) : Nat := if |v| > t then 1 else 0

/-- `binary = (np.abs(diff) > threshold).astype(np.uint8)` (src/app.py line 118). -/
def binaryMask (diff : Mat) (t : ℚ) : List (List Nat) :=
  diff.map (fun r => r.map (threshPix t))

/-- A pixel position (row, col). -/
abbrev Pix := Nat × Nat

/-- Value of the uint8 mask raster at a pixel, 0 outside the raster. -/
def valAt (b : List (List Nat)) (p : Pix) : Nat := (b.getD p.1 []).getD p.2 0

/-- Width (number of columns) of the mask raster. -/
def widthOf (b : List (List Nat)) : Nat := (b.headD []).length

/-- 4-connectivity neighbours of a pixel (rasterio's default connectivity). -/
def neighbors (p : Pix) : List Pix :=
  [(p.1 + 1, p.2), (p.1, p.2 + 1)] ++
    (if p.1 = 0 then [] else [(p.1 - 1, p.2)]) ++
    (if p.2 = 0 then [] else [(p.1, p.2 - 1)])

/-- A pixel belongs to the region grown for value `v`: in bounds, unmasked
(the mask is `binary.astype(bool)`, so the pixel value is nonzero), and equal
to the seed value. -/
def selPix (b : List (List Nat)) (v : Nat) (p : Pix) : Bool :=
  decide (p.1 < b.length) && decide (p.2 < widthOf b) &&
    decide (valAt b p ≠ 0) && decide (valAt b p = v)

/-- One step of region growth: add every admissible neighbour of the region. -/
def expandStep (sel : Pix → Bool) (s : Finset Pix) : Finset Pix :=
  s ∪ s.biUnion (fun p => ((neighbors p).filter sel).toFinset)

/-- Region reached from a seed pixel in at most `fuel` growth steps. -/
def reachN (sel : Pix → Bool) : Nat → Pix → Finset Pix
  | 0, p => {p}
  | n + 1, p => expandStep sel (reachN sel n p)

/-- All pixel positions of an `hh × ww` raster in row-major order. -/
def allPix (hh ww : Nat) : List Pix :=
  (List.range hh).flatMap (fun i => (List.range ww).map (fun j => (i, j)))

/-- Scan the pixel list; each unmasked pixel not yet assigned to a region seeds
a new maximal connected region of its value. -/
def componentsAux (b : List (List Nat)) (fuel : Nat) :
    List Pix → Finset Pix → List (Finset Pix × Nat)
  | [], _ => []
  | p :: rest, seen =>
    if valAt b p ≠ 0 ∧ p ∉ seen then
      let c := reachN (selPix b (valAt b p)) fuel p
      (c, valAt b p) :: componentsAux b fuel rest (seen ∪ c)
    else componentsAux b fuel rest seen

/-- `rasterio.features.shapes(binary, mask=binary.astype(bool), transform=...)`
(src/app.py line 121): one (region, value) pair per maximal 4-connected region
of equal-valued unmasked pixels.  A fuel of `H * W` growth steps saturates any
region, since a region holds at most `H * W` pixels. -/
def shapesModel (b : List (List Nat)) : List (Finset Pix × Nat) :=
  componentsAux b (b.length * widthOf b) (allPix b.length (widthOf b)) ∅

/-- `geoms = [shape(geom) for geom, val in shapes_gen if val == 1]`
(src/app.py line 122). -/
def geomsOf (b : List (List Nat)) : List (Finset Pix) :=
  ((shapesModel b).filter (fun cv => cv.2 == 1)).map (fun cv => cv.1)

/-- An axis-aligned bounding box with rational coordinates. -/
structure BBoxQ where
  minx : ℚ
  miny : ℚ
  maxx : ℚ
  maxy : ℚ
deriving DecidableEq

/-- The affine transform of `rasterio.transform.from_bounds(*bbox, width, height)`
(src/app.py line 105) applied to a pixel-space point (col, row): north-up grid
anchored at the top-left corner of the bounding box. -/
def applyTransform (bb : BBoxQ) (w h : ℚ) (col row : ℚ) : ℚ × ℚ :=
  (bb.minx + col * ((bb.maxx - bb.minx) / w),
   bb.maxy + row * ((bb.miny - bb.maxy) / h))

/-- Membership of a geographic point in a bounding box. -/
def inBBox (bb : BBoxQ) (q : ℚ × ℚ) : Prop :=
  bb.minx ≤ q.1 ∧ q.1 ≤ bb.maxx ∧ bb.miny ≤ q.2 ∧ q.2 ≤ bb.maxy

/-- The four pixel-space corner points (col, row) of pixel (row i, col j):
polygon coordinates come from the transform applied to pixel boundaries. -/
def pixelCorners (p : Pix) : List (ℚ × ℚ) :=
  [((p.2 : ℚ), (p.1 : ℚ)), ((p.2 : ℚ) + 1, (p.1 : ℚ)),
   ((p.2 : ℚ), (p.1 : ℚ) + 1), ((p.2 : ℚ) + 1, (p.1 : ℚ) + 1)]

/-- The five shapefile sidecar extensions of the export loop (src/app.py line 136). -/
def sidecarExts : List String := [".shp", ".shx", ".dbf", ".cpg", ".prj"]

/-- Stem of every exported file name. -/
def exportStem : String := "ndvi_change"

/-- The ZipFile loop (src/app.py lines 135-139): each sidecar file is added to
the archive exactly when it exists on disk after the vector write; a missing
sidecar is skipped silently. -/
def zipEntries (fileExists : String → Bool) : List String :=
  (sidecarExts.filter (fun e => fileExists (exportStem ++ e))).map
    (fun e => exportStem ++ e)

/-- An AOI geometry: the coordinates of the supplied GeoJSON polygon
(what `geom.bounds` consumes). -/
structure GeoJSON where
  coords : List (ℚ × ℚ)
deriving DecidableEq

/-- `geom.bounds` (src/app.py line 44): (minx, miny, maxx, maxy) of the
geometry's coordinates. -/
def boundsOf (g : GeoJSON) : BBoxQ :=
  match g.coords with
  | [] => ⟨0, 0, 0, 0⟩
  | c :: cs =>
    ⟨cs.foldl (fun acc q => min acc q.1) c.1,
     cs.foldl (fun acc q => min acc q.2) c.2,
     cs.foldl (fun acc q => max acc q.1) c.1,
     cs.foldl (fun acc q => max acc q.2) c.2⟩

/-- Modelled from the spec: `sentinelhub.bbox_to_dimensions` is third-party
library code not present in src/; the spec states dimension = bbox extent /
resolution, rounded per the provider's convention. -/
def bboxToDimensions (bb : BBoxQ) (res : ℚ) : Nat × Nat :=
  (((bb.maxx - bb.minx) / res).ceil.toNat, ((bb.maxy - bb.miny) / res).ceil.toNat)

/-- Output sample type requested by the evalscript. -/
inductive SampleType where
  | float32
  | uint8
deriving DecidableEq

/-- The per-pixel expression of the evalscript: `index(a, b) = (a - b) / (a + b)`,
the normalized difference of two bands. -/
inductive IndexExpr where
  | normalizedDifference (nir red : String)
deriving DecidableEq

/-- Structured content of the NDVI evalscript (src/app.py lines 58-74). -/
structure Evalscript where
  inputBands : List String
  outputBandCount : Nat
  sampleType : SampleType
  pixelExpr : IndexExpr
deriving DecidableEq

/-- The evalscript constant of src/app.py: inputs B04 (red) and B08 (NIR), one
FLOAT32 output band, pixel value `index(sample.B08, sample.B04)`. -/
def ndviEvalscript : Evalscript where
  inputBands := [("B04"), ("B08")]
  outputBandCount := 1
  sampleType := SampleType.float32
  pixelExpr := IndexExpr.normalizedDifference ("B08") ("B04")

/-- One SentinelHubRequest as built by get_ndvi (src/app.py lines 76-88). -/
structure Request where
  evalscript : Evalscript
  dataCollection : String
  timeFrom : String
  timeTo : String
  responseFormat : String
  bbox : BBoxQ
  size : Nat × Nat
deriving DecidableEq

/-- `get_ndvi(date)`: the request it issues, with the degenerate time interval
`(str(date), str(date))`. -/
def sentinelRequest (bb : BBoxQ) (size : Nat × Nat) (date : String) : Request where
  evalscript := ndviEvalscript
  dataCollection := "SENTINEL2_L2A"
  timeFrom := date
  timeTo := date
  responseFormat := "TIFF"
  bbox := bb
  size := size

/-- The interactive inputs of one script run. -/
structure RunInputs where
  uploadedFile : Option GeoJSON
  lastActiveDrawing : Option GeoJSON
  date1 : String
  date2 : String
  buttonPressed : Bool
deriving DecidableEq

/-- Observable trace of one script run: the bounding box computed (if any), the
remote requests issued, and whether any pipeline output was produced. -/
structure RunTrace where
  bbox : Option BBoxQ
  requests : List Request
  producedOutput : Bool
deriving DecidableEq

/-- `aoi_geojson` after the upload-or-draw block (src/app.py lines 24-39): the
uploaded file if present, else the last drawn shape if present, else nothing. -/
def aoiGeojson (inp : RunInputs) : Option GeoJSON :=
  match inp.uploadedFile with
  | some g => some g
  | none => inp.lastActiveDrawing

/-- Control flow of the script: the `if aoi_geojson:` guard (line 41) and the
compute button (line 90).  Without an AOI nothing downstream runs; with an AOI
the bounding box is computed, and pressing the button issues one request per
date and produces the pipeline outputs. -/
def runApp (inp : RunInputs) : RunTrace :=
  match aoiGeojson inp with
  | none => { bbox := none, requests := [], producedOutput := false }
  | some g =>
    let bb := boundsOf g
    let size := bboxToDimensions bb 10
    if inp.buttonPressed then
      { bbox := some bb
        requests := [sentinelRequest bb size inp.date1, sentinelRequest bb size inp.date2]
        producedOutput := true }
    else
      { bbox := some bb, requests := [], producedOutput := false }

example : npSub [[1, 2], [3, 4]] [[0, 0]] = Except.ok [[1, 2], [3, 4]] := by
  have h2 : List.replicate 2 [(0 : ℚ), 0] = [[0, 0], [0, 0]] := rfl
  norm_num [npSub, shape, compatDim, broadcastTo, elemSub, h2]
example : binaryMask [[1/5, 0], [0, -3/10]] (1/5) = [[0, 0], [0, 1]] := by
  norm_num [binaryMask, threshPix, abs_of_nonneg, abs_of_nonpos]
example : shapesModel [[1, 1], [1, 1]] =
    [(Finset.range 2 ×ˢ Finset.range 2, 1)] := by decide
example : geomsOf [[0, 0], [0, 0]] = [] := by decide
example : geomsOf [[1, 0], [0, 1]] = [({(0, 0)} : Finset Pix), ({(1, 1)} : Finset Pix)] := by
  decide
example : normalize [[1/2, 1/2]] = [[none, none]] := by
  norm_num [normalize, npMin, npMax, npDiv, List.replicate_succ]

/-- getD after a map, when the default is the image of a default. -/
theorem getD_map {α β : Type} (f : α → β) (l : List α) (i : Nat) (d : α) :
    (l.map f).getD i (f d) = f (l.getD i d) := by
  induction l generalizing i with
  | nil => simp
  | cons x xs ih =>
    cases i with
    | zero => simp
    | succ n => simpa using ih n

/-- A getD access is the default or one of the list's elements. -/
theorem getD_eq_or_mem {α : Type} (l : List α) (i : Nat) (d : α) :
    l.getD i d = d ∨ l.getD i d ∈ l := by
  induction l generalizing i with
  | nil => left; simp
  | cons x xs ih =>
    cases i with
    | zero => right; simp
    | succ n =>
      rcases ih n with h | h
      · left; simpa using h
      · right; simp only [List.getD_cons_succ]; exact List.mem_cons_of_mem _ h

/-- Thresholding the padding value 0 gives 0 for a nonnegative threshold. -/
theorem threshPix_zero {t : ℚ} (ht : 0 ≤ t) : threshPix t 0 = 0 := by
  simp [threshPix, not_lt.mpr ht]

/-- Entry (i, j) of the binary mask is the thresholded entry (i, j) of diff. -/
theorem binaryMask_entry (diff : Mat) (t : ℚ) (i j : Nat) (ht : 0 ≤ t) :
    ((binaryMask diff t).getD i []).getD j 0 = threshPix t ((diff.getD i []).getD j 0) := by
  have h1 : (binaryMask diff t).getD i [] = (diff.getD i []).map (threshPix t) :=
    getD_map (fun r : List ℚ => r.map (threshPix t)) diff i []
  calc ((binaryMask diff t).getD i []).getD j 0
      = ((diff.getD i []).map (threshPix t)).getD j 0 := by rw [h1]
    _ = ((diff.getD i []).map (threshPix t)).getD j (threshPix t 0) := by
        rw [threshPix_zero ht]
    _ = threshPix t ((diff.getD i []).getD j 0) := getD_map _ _ _ _

/-- C1: for every difference raster and every threshold t in [0,1], the mask
entry at (i, j) is 1 exactly when |diff[i,j]| > t (strict inequality), and a
pixel whose absolute difference equals t yields mask value 0. -/
theorem thresholder_strict (diff : Mat) (t : ℚ) (i j : Nat)
    (ht0 : 0 ≤ t) (ht1 : t ≤ 1) :
    (((binaryMask diff t).getD i []).getD j 0 = 1 ↔ |(diff.getD i []).getD j 0| > t) ∧
    (|(diff.getD i []).getD j 0| = t → ((binaryMask diff t).getD i []).getD j 0 = 0) := by
  rw [binaryMask_entry diff t i j ht0]
  set v := (diff.getD i []).getD j 0 with hv
  unfold threshPix
  constructor
  · by_cases h : |v| > t <;> simp [h]
  · intro heq
    rw [heq]
    simp

/-- Witness for C1 at diff = [[1/5]], t = 1/5: the pixel equals the threshold
and is not flagged. -/
theorem thresholder_strict_witness :
    ((((binaryMask [[1/5]] (1/5)).getD 0 []).getD 0 0 = 1 ↔
        |(([[(1:ℚ)/5]] : Mat).getD 0 []).getD 0 0| > 1/5) ∧
      (|(([[(1:ℚ)/5]] : Mat).getD 0 []).getD 0 0| = 1/5 →
        (((binaryMask [[1/5]] (1/5)).getD 0 []).getD 0 0 = 0))) :=
  thresholder_strict [[1/5]] (1/5) 0 0 (by norm_num) (by norm_num)

/-- C2 (code bug): the normalization expression of src/app.py line 112 has no
guard for a constant raster; on the constant raster [[1/2, 1/2], [1/2, 1/2]]
the denominator max - min is 0 and every output sample is non-finite (NaN),
not a constant raster. -/
theorem normalize_constant_raster_nan :
    normalize [[1/2, 1/2], [1/2, 1/2]] = [[none, none], [none, none]] := by
  have h2 : List.replicate 2 (none : Option ℚ) = [none, none] := rfl
  norm_num [normalize, npMin, npMax, npDiv, h2]

/-- Result discriminator for the embedded numpy subtraction. -/
def isOk (e : Except String Mat) : Bool :=
  match e with
  | Except.ok _ => true
  | Except.error _ => false

/-- C3 counterexample: the rasters [[1,2],[3,4]] and [[0,0]] have different
shapes, yet `ndvi2 - ndvi1` silently broadcasts and produces a result instead
of failing with a shape-mismatch error. -/
theorem np_sub_silent_broadcast :
    shape [[1, 2], [3, 4]] ≠ shape [[0, 0]] ∧
    npSub [[1, 2], [3, 4]] [[0, 0]] = Except.ok [[1, 2], [3, 4]] := by
  constructor
  · decide
  · have h2 : List.replicate 2 [(0 : ℚ), 0] = [[0, 0], [0, 0]] := rfl
    norm_num [npSub, shape, compatDim, broadcastTo, elemSub, h2]

/-- C3 amended: the subtraction fails fast with the broadcast error exactly
when the two shapes are not numpy-broadcast-compatible; differing but
broadcast-compatible shapes are silently broadcast to a result. -/
theorem np_sub_error_iff_incompatible (a b : Mat) :
    (isOk (npSub a b) =
      (compatDim (shape a).1 (shape b).1 && compatDim (shape a).2 (shape b).2)) ∧
    ((compatDim (shape a).1 (shape b).1 && compatDim (shape a).2 (shape b).2) = false →
      npSub a b = Except.error broadcastErrMsg) := by
  constructor
  · unfold npSub
    by_cases h : (compatDim (shape a).1 (shape b).1 &&
        compatDim (shape a).2 (shape b).2) = true
    · rw [if_pos h, h]; rfl
    · rw [if_neg h]; simp only [Bool.not_eq_true] at h; rw [h]; rfl
  · intro h
    unfold npSub
    rw [if_neg]
    simp [h]

/-- Witness for C3's amended statement at shapes (2,2) and (3,1): incompatible,
so the subtraction raises the broadcast error. -/
theorem np_sub_error_iff_incompatible_witness :
    (isOk (npSub [[(1:ℚ), 2], [3, 4]] [[5], [6], [7]]) =
      (compatDim (shape [[(1:ℚ), 2], [3, 4]]).1 (shape [[(5:ℚ)], [6], [7]]).1 &&
        compatDim (shape [[(1:ℚ), 2], [3, 4]]).2 (shape [[(5:ℚ)], [6], [7]]).2)) ∧
    npSub [[(1:ℚ), 2], [3, 4]] [[5], [6], [7]] = Except.error broadcastErrMsg :=
  ⟨(np_sub_error_iff_incompatible [[1, 2], [3, 4]] [[5], [6], [7]]).1,
    (np_sub_error_iff_incompatible [[1, 2], [3, 4]] [[5], [6], [7]]).2 (by decide)⟩

/-- C4: when no AOI geometry is supplied (no uploaded file and no drawn shape),
nothing downstream runs: no bounding box, no remote requests, no output. -/
theorem missing_aoi_halts (inp : RunInputs)
    (hu : inp.uploadedFile = none) (hd : inp.lastActiveDrawing = none) :
    runApp inp = { bbox := none, requests := [], producedOutput := false } := by
  unfold runApp aoiGeojson
  rw [hu, hd]

/-- Witness for C4: a run with no AOI but with the compute button pressed still
produces nothing. -/
theorem missing_aoi_halts_witness :
    runApp ⟨none, none, ("2023-01-01"), ("2023-06-01"), true⟩ =
      { bbox := none, requests := [], producedOutput := false } :=
  missing_aoi_halts ⟨none, none, ("2023-01-01"), ("2023-06-01"), true⟩ rfl rfl

/-- A row of the source width is unchanged by the column-broadcast step. -/
theorem row_fix (w : Nat) (r : List ℚ) (h : r.length = w) :
    (if r.length == 1 then List.replicate w (r.headD 0) else r) = r := by
  by_cases h1 : r.length = 1
  · obtain ⟨a, rfl⟩ := List.length_eq_one.mp h1
    simp at h
    rw [← h]
    simp [List.replicate]
  · rw [if_neg (by simpa using h1)]

/-- Mapping the column-broadcast step over rows of the source width is the
identity. -/
theorem map_row_fix (w : Nat) : ∀ l : Mat, (∀ x ∈ l, x.length = w) →
    l.map (fun r => if r.length == 1 then List.replicate w (r.headD 0) else r) = l := by
  intro l
  induction l with
  | nil => intro _; rfl
  | cons x xs ih =>
    intro h
    simp only [List.map_cons]
    rw [row_fix w x (h x (List.mem_cons_self x xs)),
      ih (fun y hy => h y (List.mem_cons_of_mem _ hy))]

/-- Broadcasting a well-formed array to its own shape is the identity. -/
theorem broadcastTo_self (m : Mat) (hwf : WF m) :
    broadcastTo m (shape m).1 (shape m).2 = m := by
  unfold broadcastTo
  have hrows : (if m.length == 1 then List.replicate (shape m).1 (m.headD []) else m) = m := by
    by_cases h1 : m.length = 1
    · obtain ⟨r, rfl⟩ := List.length_eq_one.mp h1
      simp [shape, List.replicate]
    · rw [if_neg (by simpa using h1)]
  rw [hrows]
  exact map_row_fix (shape m).2 m hwf

/-- compatDim is reflexive. -/
theorem compatDim_self (x : Nat) : compatDim x x = true := by
  simp [compatDim]

/-- On well-formed equal-shape inputs, the numpy subtraction succeeds and is
plain elementwise subtraction. -/
theorem npSub_eq_elemSub (a b : Mat) (ha : WF a) (hb : WF b) (hsh : shape a = shape b) :
    npSub a b = Except.ok (elemSub a b) := by
  unfold npSub
  rw [← hsh, if_pos (by rw [compatDim_self, compatDim_self]; rfl), max_self, max_self,
    broadcastTo_self a ha, hsh, broadcastTo_self b hb]

/-- Antisymmetry of truncating elementwise subtraction, row level. -/
theorem zipWith_sub_antisymm (l1 l2 : List ℚ) :
    List.zipWith (fun x y => x - y) l1 l2 =
      (List.zipWith (fun x y => x - y) l2 l1).map (fun x => -x) := by
  induction l1 generalizing l2 with
  | nil => cases l2 <;> rfl
  | cons x xs ih =>
    cases l2 with
    | nil => rfl
    | cons y ys => simp [ih ys, neg_sub]

/-- Antisymmetry of elementwise subtraction, array level. -/
theorem elemSub_antisymm (a b : Mat) : elemSub a b = negMat (elemSub b a) := by
  unfold elemSub negMat
  induction a generalizing b with
  | nil => cases b <;> rfl
  | cons r rs ih =>
    cases b with
    | nil => rfl
    | cons s ss => simp [zipWith_sub_antisymm r s, ih ss]

/-- C7: for well-formed equal-shape rasters, the differencer succeeds with
elementwise subtraction and is anti-symmetric: diff(a, b) = −diff(b, a). -/
theorem differencer_antisymm (a b : Mat) (ha : WF a) (hb : WF b)
    (hsh : shape a = shape b) :
    npSub a b = Except.ok (elemSub a b) ∧
    npSub b a = Except.ok (elemSub b a) ∧
    elemSub a b = negMat (elemSub b a) :=
  ⟨npSub_eq_elemSub a b ha hb hsh, npSub_eq_elemSub b a hb ha hsh.symm,
    elemSub_antisymm a b⟩

/-- Witness for C7 on the rasters [[0,1]] and [[2,3]]. -/
theorem differencer_antisymm_witness :
    npSub [[(0:ℚ), 1]] [[2, 3]] = Except.ok (elemSub [[0, 1]] [[2, 3]]) ∧
    npSub [[(2:ℚ), 3]] [[0, 1]] = Except.ok (elemSub [[2, 3]] [[0, 1]]) ∧
    elemSub [[(0:ℚ), 1]] [[2, 3]] = negMat (elemSub [[2, 3]] [[0, 1]]) :=
  differencer_antisymm [[0, 1]] [[2, 3]] (by unfold WF; decide) (by unfold WF; decide) (by decide)

/-- Subtracting a row from itself gives an all-zero row. -/
theorem zipWith_sub_self (l : List ℚ) :
    List.zipWith (fun x y => x - y) l l = l.map (fun _ => (0:ℚ)) := by
  induction l with
  | nil => rfl
  | cons x xs ih => simp [ih]

/-- Subtracting an array from itself gives an all-zero array. -/
theorem elemSub_self (a : Mat) :
    elemSub a a = a.map (fun r => r.map (fun _ => (0:ℚ))) := by
  unfold elemSub
  induction a with
  | nil => rfl
  | cons r rs ih => simp [zipWith_sub_self, ih]

/-- Every entry of a self-difference is zero. -/
theorem elemSub_self_entries (a : Mat) : ∀ r ∈ elemSub a a, ∀ v ∈ r, v = 0 := by
  rw [elemSub_self]
  intro r hr v hv
  rcases List.mem_map.mp hr with ⟨r0, _, rfl⟩
  rcases List.mem_map.mp hv with ⟨x, _, hx⟩
  exact hx.symm

/-- Thresholding an all-zero raster gives an all-zero mask for t ≥ 0. -/
theorem binaryMask_zero_entries (z : Mat) (t : ℚ) (ht : 0 ≤ t)
    (hz : ∀ r ∈ z, ∀ v ∈ r, v = 0) :
    ∀ r ∈ binaryMask z t, ∀ n ∈ r, n = 0 := by
  unfold binaryMask
  intro r hr n hn
  rcases List.mem_map.mp hr with ⟨r0, hr0, rfl⟩
  rcases List.mem_map.mp hn with ⟨v, hv, rfl⟩
  rw [hz r0 hr0 v hv]
  exact threshPix_zero ht

/-- An all-zero mask raster has value 0 at every pixel, inside or outside. -/
theorem valAt_zero (b : List (List Nat)) (hz : ∀ r ∈ b, ∀ n ∈ r, n = 0) (p : Pix) :
    valAt b p = 0 := by
  unfold valAt
  rcases getD_eq_or_mem b p.1 [] with h | h
  · rw [h]; simp
  · rcases getD_eq_or_mem (b.getD p.1 []) p.2 0 with h2 | h2
    · exact h2
    · exact hz _ h _ h2

/-- When every pixel value is 0 the scan seeds no region. -/
theorem componentsAux_nil_of_zero (b : List (List Nat)) (hz : ∀ p, valAt b p = 0)
    (fuel : Nat) : ∀ l seen, componentsAux b fuel l seen = [] := by
  intro l
  induction l with
  | nil => intro _; rfl
  | cons p rest ih =>
    intro seen
    simp only [componentsAux]
    rw [if_neg (fun hc => hc.1 (hz p))]
    exact ih seen

/-- An all-zero mask yields no shapes. -/
theorem shapesModel_zero (b : List (List Nat)) (hz : ∀ r ∈ b, ∀ n ∈ r, n = 0) :
    shapesModel b = [] := by
  unfold shapesModel
  exact componentsAux_nil_of_zero b (valAt_zero b hz) _ _ _

/-- C5: for a raster differenced with itself, the difference is all zeros, the
binary mask is all zeros for every threshold t ≥ 0, and the resulting change
set is empty. -/
theorem identical_rasters_empty (a : Mat) (t : ℚ) (ha : WF a) (ht : 0 ≤ t) :
    npSub a a = Except.ok (elemSub a a) ∧
    (∀ r ∈ elemSub a a, ∀ v ∈ r, v = 0) ∧
    (∀ r ∈ binaryMask (elemSub a a) t, ∀ n ∈ r, n = 0) ∧
    geomsOf (binaryMask (elemSub a a) t) = [] := by
  refine ⟨npSub_eq_elemSub a a ha ha rfl, elemSub_self_entries a,
    binaryMask_zero_entries _ t ht (elemSub_self_entries a), ?_⟩
  unfold geomsOf
  rw [shapesModel_zero _ (binaryMask_zero_entries _ t ht (elemSub_self_entries a))]
  rfl

/-- Witness for C5 at a = [[0, 1]], t = 0. -/
theorem identical_rasters_empty_witness :
    npSub [[(0:ℚ), 1]] [[0, 1]] = Except.ok (elemSub [[0, 1]] [[0, 1]]) ∧
    (∀ r ∈ elemSub [[(0:ℚ), 1]] [[0, 1]], ∀ v ∈ r, v = 0) ∧
    (∀ r ∈ binaryMask (elemSub [[(0:ℚ), 1]] [[0, 1]]) 0, ∀ n ∈ r, n = 0) ∧
    geomsOf (binaryMask (elemSub [[(0:ℚ), 1]] [[0, 1]]) 0) = [] :=
  identical_rasters_empty [[0, 1]] 0 (by unfold WF; decide) (by decide)

/-- C8: the archive holds exactly the sidecar files that exist after the vector
write (a missing one is silently omitted), and when all five exist the archive
has exactly the five documented entries. -/
theorem zip_archive_exact (fileExists : String → Bool) :
    (∀ name, name ∈ zipEntries fileExists ↔
      ∃ e ∈ sidecarExts, name = exportStem ++ e ∧ fileExists name = true) ∧
    ((∀ e ∈ sidecarExts, fileExists (exportStem ++ e) = true) →
      zipEntries fileExists = sidecarExts.map (fun e => exportStem ++ e) ∧
      (zipEntries fileExists).length = 5) := by
  constructor
  · intro name
    unfold zipEntries
    constructor
    · intro h
      rcases List.mem_map.mp h with ⟨e, he, rfl⟩
      have := List.mem_filter.mp he
      exact ⟨e, this.1, rfl, this.2⟩
    · rintro ⟨e, he, rfl, hex⟩
      exact List.mem_map.mpr ⟨e, List.mem_filter.mpr ⟨he, hex⟩, rfl⟩
  · intro hall
    have hf : sidecarExts.filter (fun e => fileExists (exportStem ++ e)) = sidecarExts :=
      List.filter_eq_self.mpr hall
    unfold zipEntries
    rw [hf]
    exact ⟨rfl, rfl⟩

/-- Witness for C8 when every sidecar file exists. -/
theorem zip_archive_exact_witness :
    zipEntries (fun _ => true) = sidecarExts.map (fun e => exportStem ++ e) ∧
    (zipEntries (fun _ => true)).length = 5 :=
  (zip_archive_exact (fun _ => true)).2 (fun _ _ => rfl)

/-- C9: an AOI plus a press of the compute button issues exactly the two
requests [date1, date2], one per date, each with the NDVI evalscript (one
FLOAT32 output band, normalized difference of B08 and B04) and a degenerate
time interval whose start and end equal the date. -/
theorem fetcher_requests (inp : RunInputs) (g : GeoJSON)
    (hg : aoiGeojson inp = some g) (hb : inp.buttonPressed = true) :
    (runApp inp).requests =
      [sentinelRequest (boundsOf g) (bboxToDimensions (boundsOf g) 10) inp.date1,
       sentinelRequest (boundsOf g) (bboxToDimensions (boundsOf g) 10) inp.date2] ∧
    (runApp inp).requests.length = 2 ∧
    (runApp inp).requests.map Request.timeFrom = [inp.date1, inp.date2] ∧
    ∀ r ∈ (runApp inp).requests,
      r.timeFrom = r.timeTo ∧
      r.evalscript.outputBandCount = 1 ∧
      r.evalscript.sampleType = SampleType.float32 ∧
      r.evalscript.pixelExpr = IndexExpr.normalizedDifference ("B08") ("B04") := by
  have hreq : (runApp inp).requests =
      [sentinelRequest (boundsOf g) (bboxToDimensions (boundsOf g) 10) inp.date1,
       sentinelRequest (boundsOf g) (bboxToDimensions (boundsOf g) 10) inp.date2] := by
    simp [runApp, hg, hb]
  refine ⟨hreq, by rw [hreq]; rfl, by rw [hreq]; rfl, ?_⟩
  intro r hr
  rw [hreq] at hr
  rcases List.mem_cons.mp hr with rfl | hr2
  · exact ⟨rfl, rfl, rfl, rfl⟩
  · rcases List.mem_cons.mp hr2 with rfl | h3
    · exact ⟨rfl, rfl, rfl, rfl⟩
    · exact absurd h3 (List.not_mem_nil r)

/-- A concrete AOI geometry for the fetcher witness. -/
def witnessGeo : GeoJSON := ⟨[(0, 0), (1, 1)]⟩

/-- A concrete run with an uploaded AOI and the button pressed. -/
def witnessRun : RunInputs := ⟨some witnessGeo, none, ("2023-01-01"), ("2023-06-01"), true⟩

/-- Witness for C9 on a concrete run. -/
theorem fetcher_requests_witness :
    aoiGeojson witnessRun = some witnessGeo ∧ witnessRun.buttonPressed = true ∧
    (runApp witnessRun).requests =
      [sentinelRequest (boundsOf witnessGeo) (bboxToDimensions (boundsOf witnessGeo) 10)
          witnessRun.date1,
       sentinelRequest (boundsOf witnessGeo) (bboxToDimensions (boundsOf witnessGeo) 10)
          witnessRun.date2] :=
  ⟨rfl, rfl, (fetcher_requests witnessRun witnessGeo rfl rfl).1⟩

/-- Growth never removes pixels. -/
theorem expandStep_subset (sel : Pix → Bool) (s : Finset Pix) : s ⊆ expandStep sel s := by
  unfold expandStep
  exact Finset.subset_union_left

/-- A pixel of a grown region was there or is admissible. -/
theorem mem_expandStep {sel : Pix → Bool} {s : Finset Pix} {q : Pix}
    (h : q ∈ expandStep sel s) : q ∈ s ∨ sel q = true := by
  unfold expandStep at h
  rcases Finset.mem_union.mp h with h | h
  · exact Or.inl h
  · rcases Finset.mem_biUnion.mp h with ⟨p, _, hq⟩
    exact Or.inr (List.mem_filter.mp (List.mem_toFinset.mp hq)).2

/-- Every pixel of a reached region is the seed or admissible. -/
theorem mem_reachN {sel : Pix → Bool} {fuel : Nat} {p q : Pix}
    (h : q ∈ reachN sel fuel p) : q = p ∨ sel q = true := by
  induction fuel with
  | zero => exact Or.inl (by simpa [reachN] using h)
  | succ n ih =>
    rcases mem_expandStep (by simpa [reachN] using h) with h2 | h2
    · exact ih h2
    · exact Or.inr h2

/-- The seed belongs to its own region. -/
theorem self_mem_reachN (sel : Pix → Bool) (fuel : Nat) (p : Pix) :
    p ∈ reachN sel fuel p := by
  induction fuel with
  | zero => simp [reachN]
  | succ n ih =>
    simp only [reachN]
    exact expandStep_subset _ _ ih

/-- More fuel reaches at least as much. -/
theorem reachN_mono (sel : Pix → Bool) (p : Pix) {m n : Nat} (h : m ≤ n) :
    reachN sel m p ⊆ reachN sel n p := by
  induction h with
  | refl => exact Finset.Subset.refl _
  | step _ ih =>
    intro x hx
    simp only [reachN]
    exact expandStep_subset _ _ (ih hx)

/-- An admissible neighbour of a region pixel is in the grown region. -/
theorem expand_of_neighbor {sel : Pix → Bool} {s : Finset Pix} {p q : Pix}
    (hp : p ∈ s) (hq : q ∈ neighbors p) (hsel : sel q = true) : q ∈ expandStep sel s := by
  unfold expandStep
  exact Finset.mem_union_right _
    (Finset.mem_biUnion.mpr ⟨p, hp, List.mem_toFinset.mpr (List.mem_filter.mpr ⟨hq, hsel⟩)⟩)

/-- What admissibility of a pixel means. -/
theorem selPix_spec {b : List (List Nat)} {v : Nat} {p : Pix} (h : selPix b v p = true) :
    p.1 < b.length ∧ p.2 < widthOf b ∧ valAt b p ≠ 0 ∧ valAt b p = v := by
  unfold selPix at h
  simp only [Bool.and_eq_true, decide_eq_true_eq] at h
  exact ⟨h.1.1.1, h.1.1.2, h.1.2, h.2⟩

/-- Every emitted shape has a nonzero value and only nonzero (unmasked) pixels. -/
theorem componentsAux_emitted (b : List (List Nat)) (fuel : Nat) :
    ∀ (l : List Pix) (seen c : Finset Pix) (v : Nat),
      (c, v) ∈ componentsAux b fuel l seen →
      v ≠ 0 ∧ ∀ p ∈ c, valAt b p ≠ 0 := by
  intro l
  induction l with
  | nil => intro seen c v h; simp [componentsAux] at h
  | cons p rest ih =>
    intro seen c v h
    simp only [componentsAux] at h
    by_cases hc : valAt b p ≠ 0 ∧ p ∉ seen
    · rw [if_pos hc] at h
      rcases List.mem_cons.mp h with heq | htail
      · rw [Prod.mk.injEq] at heq
        obtain ⟨rfl, rfl⟩ := heq
        refine ⟨hc.1, fun q hq => ?_⟩
        rcases mem_reachN hq with rfl | hs
        · exact hc.1
        · exact (selPix_spec hs).2.2.1
      · exact ih _ _ _ htail
    · rw [if_neg hc] at h
      exact ih _ _ _ h

/-- Every pixel of every emitted shape is inside the raster, provided the
scanned pixels are. -/
theorem componentsAux_bounds (b : List (List Nat)) (fuel : Nat) :
    ∀ (l : List Pix) (seen c : Finset Pix) (v : Nat),
      (∀ p ∈ l, p.1 < b.length ∧ p.2 < widthOf b) →
      (c, v) ∈ componentsAux b fuel l seen →
      ∀ q ∈ c, q.1 < b.length ∧ q.2 < widthOf b := by
  intro l
  induction l with
  | nil => intro seen c v _ h; simp [componentsAux] at h
  | cons p rest ih =>
    intro seen c v hl h
    simp only [componentsAux] at h
    by_cases hc : valAt b p ≠ 0 ∧ p ∉ seen
    · rw [if_pos hc] at h
      rcases List.mem_cons.mp h with heq | htail
      · rw [Prod.mk.injEq] at heq
        obtain ⟨rfl, -⟩ := heq
        intro q hq
        rcases mem_reachN hq with rfl | hs
        · exact hl q (List.mem_cons_self q rest)
        · exact ⟨(selPix_spec hs).1, (selPix_spec hs).2.1⟩
      · exact ih _ _ _ (fun q hq => hl q (List.mem_cons_of_mem _ hq)) htail
    · rw [if_neg hc] at h
      exact ih _ _ _ (fun q hq => hl q (List.mem_cons_of_mem _ hq)) h

/-- A scan of already-assigned pixels emits nothing. -/
theorem componentsAux_all_seen (b : List (List Nat)) (fuel : Nat) :
    ∀ (l : List Pix) (seen : Finset Pix), (∀ p ∈ l, p ∈ seen) →
      componentsAux b fuel l seen = [] := by
  intro l
  induction l with
  | nil => intro _ _; rfl
  | cons p rest ih =>
    intro seen hl
    simp only [componentsAux]
    rw [if_neg (fun hc => hc.2 (hl p (List.mem_cons_self p rest)))]
    exact ih seen (fun q hq => hl q (List.mem_cons_of_mem _ hq))

/-- The scan list enumerates exactly the raster's pixels. -/
theorem mem_allPix {hh ww : Nat} {p : Pix} : p ∈ allPix hh ww ↔ p.1 < hh ∧ p.2 < ww := by
  obtain ⟨i, j⟩ := p
  unfold allPix
  simp only [List.mem_flatMap, List.mem_map, List.mem_range, Prod.mk.injEq]
  constructor
  · rintro ⟨a, ha, c, hc, rfl, rfl⟩
    exact ⟨ha, hc⟩
  · rintro ⟨hi, hj⟩
    exact ⟨i, hi, j, hj, rfl, rfl⟩

/-- On a nonempty raster, the scan starts at pixel (0, 0). -/
theorem allPix_head (h w : Nat) :
    ∃ rest : List Pix, allPix (h + 1) (w + 1) = ((0, 0) : Pix) :: rest := by
  unfold allPix
  rw [List.range_succ_eq_map h, List.flatMap_cons, List.range_succ_eq_map w,
    List.map_cons, List.cons_append]
  exact ⟨_, rfl⟩

/-- getD on a replicated list. -/
theorem getD_replicate {α : Type} (n : Nat) (x d : α) (i : Nat) :
    (List.replicate n x).getD i d = if i < n then x else d := by
  induction n generalizing i with
  | zero => simp
  | succ m ih =>
    cases i with
    | zero => simp [List.replicate_succ]
    | succ k =>
      simp only [List.replicate_succ, List.getD_cons_succ]
      rw [ih k]
      simp [Nat.succ_lt_succ_iff]

/-- Width of the all-one raster. -/
theorem widthOf_replicate (hh ww : Nat) (hH : 0 < hh) :
    widthOf (List.replicate hh (List.replicate ww (1:Nat))) = ww := by
  obtain ⟨n, rfl⟩ : ∃ n, hh = n + 1 := ⟨hh - 1, by omega⟩
  simp [widthOf, List.replicate_succ]

/-- Pixel values of the all-one raster: 1 inside, 0 outside. -/
theorem valAt_allOne (hh ww : Nat) (p : Pix) :
    valAt (List.replicate hh (List.replicate ww 1)) p =
      if p.1 < hh ∧ p.2 < ww then 1 else 0 := by
  unfold valAt
  rw [getD_replicate]
  by_cases h1 : p.1 < hh
  · rw [if_pos h1, getD_replicate]
    by_cases h2 : p.2 < ww
    · rw [if_pos h2, if_pos ⟨h1, h2⟩]
    · rw [if_neg h2, if_neg (fun hc : _ ∧ _ => h2 hc.2)]
  · rw [if_neg h1, if_neg (fun hc : _ ∧ _ => h1 hc.1)]
    simp

/-- On the all-one raster, admissibility is exactly being in bounds. -/
theorem selPix_allOne (hh ww : Nat) (hH : 0 < hh) (p : Pix) :
    selPix (List.replicate hh (List.replicate ww 1)) 1 p =
      (decide (p.1 < hh) && decide (p.2 < ww)) := by
  unfold selPix
  rw [List.length_replicate, widthOf_replicate hh ww hH, valAt_allOne]
  by_cases h1 : p.1 < hh <;> by_cases h2 : p.2 < ww <;> simp [h1, h2]

/-- Walking right then down, every in-bounds pixel is reached from (0, 0)
within i + j growth steps when every in-bounds pixel is admissible. -/
theorem cover_allOne (hh ww : Nat) :
    ∀ i j, i < hh → j < ww →
      ((i, j) : Pix) ∈
        reachN (fun q : Pix => decide (q.1 < hh) && decide (q.2 < ww)) (i + j) (0, 0) := by
  intro i
  induction i with
  | zero =>
    intro j
    induction j with
    | zero => intro _ _; simp [reachN]
    | succ m ihj =>
      intro h0 hm
      have hprev := ihj h0 (Nat.lt_of_succ_lt hm)
      have hfe : (0 + (m + 1)) = (0 + m) + 1 := by omega
      rw [hfe]
      simp only [reachN]
      exact expand_of_neighbor hprev (by simp [neighbors]) (by simp [h0, hm])
  | succ n ihi =>
    intro j hn hj
    have hprev := ihi j (Nat.lt_of_succ_lt hn) hj
    have hfe : (n + 1 + j) = (n + j) + 1 := by omega
    rw [hfe]
    simp only [reachN]
    exact expand_of_neighbor hprev (by simp [neighbors]) (by simp [hn, hj])

/-- With fuel H*W the region grown from (0, 0) on the all-one raster is the
whole pixel grid. -/
theorem reach_allOne_eq_grid (hh ww : Nat) (hH : 0 < hh) (hW : 0 < ww) :
    reachN (selPix (List.replicate hh (List.replicate ww 1)) 1) (hh * ww) ((0, 0) : Pix) =
      Finset.range hh ×ˢ Finset.range ww := by
  have hsel : selPix (List.replicate hh (List.replicate ww 1)) 1 =
      fun q : Pix => decide (q.1 < hh) && decide (q.2 < ww) :=
    funext (selPix_allOne hh ww hH)
  rw [hsel]
  ext q
  simp only [Finset.mem_product, Finset.mem_range]
  constructor
  · intro hq
    rcases mem_reachN hq with rfl | hs
    · exact ⟨hH, hW⟩
    · simpa using hs
  · rintro ⟨h1, h2⟩
    have hc := cover_allOne hh ww q.1 q.2 h1 h2
    have hle : q.1 + q.2 ≤ hh * ww := by
      have hm : (q.1 + 1) * (q.2 + 1) ≤ hh * ww := Nat.mul_le_mul h1 h2
      calc q.1 + q.2 ≤ q.1 * q.2 + q.1 + q.2 + 1 := by omega
        _ = (q.1 + 1) * (q.2 + 1) := by ring
        _ ≤ hh * ww := hm
    exact reachN_mono _ _ hle (by simpa using hc)

/-- C6: the polygonizer never emits a shape whose value is 0 or containing a
0-valued (masked) pixel, and on the all-one H×W mask it emits exactly one
shape: the full pixel grid, with value 1. -/
theorem polygonizer_masked_and_full (b : List (List Nat)) (hh ww : Nat)
    (hH : 0 < hh) (hW : 0 < ww) :
    (∀ c v, (c, v) ∈ shapesModel b → v ≠ 0 ∧ ∀ p ∈ c, valAt b p ≠ 0) ∧
    shapesModel (List.replicate hh (List.replicate ww 1)) =
      [(Finset.range hh ×ˢ Finset.range ww, 1)] := by
  constructor
  · intro c v h
    exact componentsAux_emitted b _ _ _ c v h
  · obtain ⟨n, rfl⟩ : ∃ n, hh = n + 1 := ⟨hh - 1, by omega⟩
    obtain ⟨m, rfl⟩ : ∃ m, ww = m + 1 := ⟨ww - 1, by omega⟩
    unfold shapesModel
    rw [List.length_replicate, widthOf_replicate _ _ hH]
    obtain ⟨rest, hsplit⟩ := allPix_head n m
    rw [hsplit]
    simp only [componentsAux]
    have hval : valAt (List.replicate (n+1) (List.replicate (m+1) 1)) ((0,0) : Pix) = 1 := by
      rw [valAt_allOne]
      simp
    rw [if_pos ⟨fun hz => one_ne_zero (hval ▸ hz), Finset.not_mem_empty _⟩, hval,
      reach_allOne_eq_grid (n+1) (m+1) hH hW,
      componentsAux_all_seen _ _ rest _ ?_]
    intro p hp
    have hmem : p ∈ allPix (n+1) (m+1) := hsplit ▸ List.mem_cons_of_mem _ hp
    have hb := mem_allPix.mp hmem
    simp [Finset.mem_product, hb.1, hb.2]

/-- Witness for C6 with the all-one 1×1 mask. -/
theorem polygonizer_masked_and_full_witness :
    (0:Nat) < 1 ∧
    shapesModel (List.replicate 1 (List.replicate 1 1)) =
      [(Finset.range 1 ×ˢ Finset.range 1, 1)] :=
  ⟨Nat.one_pos, (polygonizer_masked_and_full [[0]] 1 1 Nat.one_pos Nat.one_pos).2⟩

/-- Every pixel of every exported change region lies inside the raster. -/
theorem geomsOf_bounds (b : List (List Nat)) :
    ∀ c ∈ geomsOf b, ∀ p ∈ c, p.1 < b.length ∧ p.2 < widthOf b := by
  intro c hc p hp
  unfold geomsOf at hc
  rcases List.mem_map.mp hc with ⟨cv, hcv, rfl⟩
  obtain ⟨c0, v0⟩ := cv
  have h1 := (List.mem_filter.mp hcv).1
  unfold shapesModel at h1
  exact componentsAux_bounds b _ _ _ c0 v0 (fun q hq => mem_allPix.mp hq) h1 p hp

/-- The affine transform maps any pixel-space point of the raster rectangle
into the bounding box. -/
theorem transform_in_bbox (bb : BBoxQ) (w h col row : ℚ)
    (hx : bb.minx ≤ bb.maxx) (hy : bb.miny ≤ bb.maxy)
    (hw : 0 < w) (hh : 0 < h) (hc0 : 0 ≤ col) (hcw : col ≤ w)
    (hr0 : 0 ≤ row) (hrh : row ≤ h) :
    inBBox bb (applyTransform bb w h col row) := by
  unfold inBBox applyTransform
  have hdx : (0:ℚ) ≤ (bb.maxx - bb.minx) / w := div_nonneg (by linarith) hw.le
  have hdy : (0:ℚ) ≤ (bb.maxy - bb.miny) / h := div_nonneg (by linarith) hh.le
  have hneg : (bb.miny - bb.maxy) / h = -((bb.maxy - bb.miny) / h) := by ring
  have hwx : w * ((bb.maxx - bb.minx) / w) = bb.maxx - bb.minx := by
    rw [mul_comm]
    exact div_mul_cancel₀ _ (ne_of_gt hw)
  have hhy : h * ((bb.maxy - bb.miny) / h) = bb.maxy - bb.miny := by
    rw [mul_comm]
    exact div_mul_cancel₀ _ (ne_of_gt hh)
  refine ⟨?_, ?_, ?_, ?_⟩
  · nlinarith [mul_nonneg hc0 hdx]
  · have h1 : col * ((bb.maxx - bb.minx) / w) ≤ w * ((bb.maxx - bb.minx) / w) :=
      mul_le_mul_of_nonneg_right hcw hdx
    linarith
  · have h1 : row * ((bb.maxy - bb.miny) / h) ≤ h * ((bb.maxy - bb.miny) / h) :=
      mul_le_mul_of_nonneg_right hrh hdy
    rw [hneg, mul_neg]
    linarith
  · rw [hneg, mul_neg]
    nlinarith [mul_nonneg hr0 hdy]

/-- C10: because the transform is built from the bounding-box corners and the
difference raster's width and height, every corner coordinate of every pixel
of every exported change polygon lies within the AOI's bounding box. -/
theorem polygon_in_bbox (b : List (List Nat)) (bb : BBoxQ)
    (hx : bb.minx ≤ bb.maxx) (hy : bb.miny ≤ bb.maxy) :
    ∀ c ∈ geomsOf b, ∀ p ∈ c, ∀ q ∈ pixelCorners p,
      inBBox bb (applyTransform bb (widthOf b : ℚ) (b.length : ℚ) q.1 q.2) := by
  intro c hc p hp q hq
  obtain ⟨h1, h2⟩ := geomsOf_bounds b c hc p hp
  have hw : (0:ℚ) < (widthOf b : ℚ) := by
    exact_mod_cast Nat.lt_of_le_of_lt (Nat.zero_le _) h2
  have hh : (0:ℚ) < (b.length : ℚ) := by
    exact_mod_cast Nat.lt_of_le_of_lt (Nat.zero_le _) h1
  have h2n : p.2 + 1 ≤ widthOf b := h2
  have h1n : p.1 + 1 ≤ b.length := h1
  have hcol1 : ((p.2 : ℚ)) ≤ (widthOf b : ℚ) := by exact_mod_cast Nat.le_of_lt h2
  have hcol2 : ((p.2 : ℚ)) + 1 ≤ (widthOf b : ℚ) := by exact_mod_cast h2n
  have hrow1 : ((p.1 : ℚ)) ≤ (b.length : ℚ) := by exact_mod_cast Nat.le_of_lt h1
  have hrow2 : ((p.1 : ℚ)) + 1 ≤ (b.length : ℚ) := by exact_mod_cast h1n
  simp only [pixelCorners, List.mem_cons, List.not_mem_nil, or_false] at hq
  rcases hq with rfl | rfl | rfl | rfl
  · exact transform_in_bbox bb _ _ _ _ hx hy hw hh (Nat.cast_nonneg _) hcol1
      (Nat.cast_nonneg _) hrow1
  · exact transform_in_bbox bb _ _ _ _ hx hy hw hh (by positivity) hcol2
      (Nat.cast_nonneg _) hrow1
  · exact transform_in_bbox bb _ _ _ _ hx hy hw hh (Nat.cast_nonneg _) hcol1
      (by positivity) hrow2
  · exact transform_in_bbox bb _ _ _ _ hx hy hw hh (by positivity) hcol2
      (by positivity) hrow2

/-- Witness for C10: the unit bounding box and the 1×1 mask [[1]]; the far
corner of its single pixel lands inside the box. -/
theorem polygon_in_bbox_witness :
    ((0:ℚ) ≤ 1) ∧
    inBBox ⟨0, 0, 1, 1⟩ (applyTransform ⟨0, 0, 1, 1⟩ (widthOf [[1]] : ℚ)
      (([[1]] : List (List Nat)).length : ℚ) 1 1) :=
  ⟨by norm_num,
    polygon_in_bbox [[1]] ⟨0, 0, 1, 1⟩ (by norm_num) (by norm_num)
      {((0:Nat), (0:Nat))} (by decide) (0, 0) (by decide) (1, 1)
      (by norm_num [pixelCorners])⟩

end NdviChange
